import Mathlib

/-!
# Comment sub-resource handlers of `routes/dishRouter.js`

A shallow embedding of the six handlers mounted on `/:dishId/comments` and
`/:dishId/comments/:commentId`, followed by theorems about them.

Modelling conventions

* The `Dishes` collection is a list of dish documents; `findById` returns the
  first document carrying the identifier and `save` writes a document back over
  the stored document with the same identifier.
* `ObjectId`s are natural numbers.  The identifier mongoose generates for a
  pushed sub-document that brings none is drawn from the counter `Store.nextId`.
* A request body is the record of the fields of a comment document (`_id`,
  `rating`, `comment`, `author`), each possibly absent.
* The value handed to `next` is a JavaScript value: an `Error` object (message
  and optional `statusCode` property) or a primitive string.  The module is not
  in strict mode, so assigning a property on a primitive string is dropped.
* A handler is a function from the store (and the request data) to a `Result`:
  the store afterwards, what was sent or forwarded, and `req.statusCode`.
* Store operations succeed; the rejection callbacks `err => next(err)` for a
  failing store are not modelled.
-/

namespace DishRouter

/-! ## Data model -/

abbrev ObjectId := Nat

/-- Modelled from the spec: a user document of the `users` collection (the
model file is not part of the sources): an identifier and profile fields. -/
structure User where
  _id : ObjectId
  username : String
  admin : Bool
  deriving DecidableEq, Repr

/-- A comment sub-document as stored: `author` is a reference into `users`. -/
structure Comment where
  _id : ObjectId
  rating : Option Int
  comment : Option String
  author : Option ObjectId
  deriving DecidableEq, Repr

/-- A dish document as stored. -/
structure Dish where
  _id : ObjectId
  name : String
  description : String
  comments : List Comment
  deriving DecidableEq, Repr

/-- A comment after `populate("comments.author")`: the reference is replaced by
the referenced user document (or null when no such user exists). -/
structure PopulatedComment where
  _id : ObjectId
  rating : Option Int
  comment : Option String
  author : Option User
  deriving DecidableEq, Repr

/-- A dish after `populate("comments.author")`. -/
structure PopulatedDish where
  _id : ObjectId
  name : String
  description : String
  comments : List PopulatedComment
  deriving DecidableEq, Repr

/-- The parsed JSON body `req.body`. -/
structure Body where
  _id : Option ObjectId
  rating : Option Int
  comment : Option String
  author : Option ObjectId
  deriving DecidableEq, Repr

/-- The database: both collections and the identifier supply. -/
structure Store where
  dishes : List Dish
  users : List User
  nextId : ObjectId
  deriving DecidableEq, Repr

/-! ## JavaScript values forwarded to `next` -/

/-- What a handler passes to `next`. -/
inductive JsErr where
  /-- an `Error` object with its `message` and its `statusCode` property -/
  | error (message : String) (statusCode : Option Nat)
  /-- a primitive string -/
  | str (s : String)
  /-- a `TypeError` raised by the engine when a property of `undefined` or
  `null` is read -/
  | typeError
  deriving DecidableEq, Repr

/-- The expression `new Error(msg)`. -/
def newError (msg : String) : JsErr := .error msg none

/-- String conversion of a value, as `+` applies it to a non-string operand
(`Error.prototype.toString`). -/
def JsErr.toStr : JsErr → String
  | .error m _ => if m = "" then "Error" else "Error: " ++ m
  | .str s => s
  | .typeError => "TypeError"

/-- The expression `v + s` for a string `s`: string concatenation. -/
def JsErr.plus (v : JsErr) (s : String) : JsErr := .str (v.toStr ++ s)

/-- The statement `err.statusCode = n`; on a primitive string it has no effect. -/
def JsErr.setStatusCode (v : JsErr) (n : Nat) : JsErr :=
  match v with
  | .error m _ => .error m (some n)
  | .str s => .str s
  | .typeError => .typeError

/-- The `statusCode` property read back from a value. -/
def JsErr.statusCode : JsErr → Option Nat
  | .error _ c => c
  | _ => none

/-- The `message` property read back from a value. -/
def JsErr.message : JsErr → Option String
  | .error m _ => some m
  | _ => none

/-! ## Responses -/

/-- The argument of `res.json`. -/
inductive Payload where
  /-- a comment list with authors expanded -/
  | comments (cs : List PopulatedComment)
  /-- one comment with its author expanded -/
  | comment (c : PopulatedComment)
  /-- the result of a reload with authors expanded (null when nothing is found) -/
  | dish (d : Option PopulatedDish)
  /-- the document resolved by `save()` -/
  | saved (d : Dish)
  deriving DecidableEq, Repr

/-- How a handler finishes. -/
inductive Outcome where
  /-- `res.statusCode = status; res.json(body)` -/
  | json (status : Nat) (body : Payload)
  /-- `next(err)` -/
  | next (err : JsErr)
  deriving DecidableEq, Repr

/-- The effect of one handler invocation. -/
structure Result where
  store : Store
  outcome : Outcome
  /-- the property `req.statusCode` after the handler ran -/
  reqStatusCode : Option Nat
  deriving DecidableEq, Repr

/-! ## Store and sub-document operations -/

/-- The query `Dishes.findById(id)`. -/
def findById (ds : List Dish) (id : ObjectId) : Option Dish :=
  ds.find? (fun d => d._id == id)

/-- The call `dish.save()`: writes the document over the stored one. -/
def save : List Dish → Dish → List Dish
  | [], _ => []
  | x :: xs, d => if x._id = d._id then d :: xs else x :: save xs d

/-- Lookup of a referenced user. -/
def findUser (us : List User) (id : ObjectId) : Option User :=
  us.find? (fun u => u._id == id)

/-- Expansion of one comment author. -/
def populateComment (us : List User) (c : Comment) : PopulatedComment :=
  { _id := c._id, rating := c.rating, comment := c.comment,
    author := c.author.bind (findUser us) }

/-- The query modifier `.populate("comments.author")`. -/
def populate (us : List User) (d : Dish) : PopulatedDish :=
  { _id := d._id, name := d.name, description := d.description,
    comments := d.comments.map (populateComment us) }

/-- The accessor `comments.id(cid)`: the first sub-document with that identifier. -/
def Comments.id (cs : List Comment) (cid : ObjectId) : Option Comment :=
  cs.find? (fun c => c._id == cid)

/-- The accessor `comments.id(cid)` on a populated document. -/
def PopulatedComments.id (cs : List PopulatedComment) (cid : ObjectId) :
    Option PopulatedComment :=
  cs.find? (fun c => c._id == cid)

/-- The call `comments.push(body)`: the body is cast to a sub-document, which
keeps the `_id` of the body and receives the generated identifier `newId` only
when the body has none. -/
def Comments.push (cs : List Comment) (newId : ObjectId) (b : Body) : List Comment :=
  cs ++ [{ _id := b._id.getD newId, rating := b.rating, comment := b.comment,
           author := b.author }]

/-- The call `sub.remove()` on the sub-document with identifier `cid`: mongoose
pulls every element with that identifier out of the parent array. -/
def Comments.remove (cs : List Comment) (cid : ObjectId) : List Comment :=
  cs.filter (fun c => c._id != cid)

/-- An assignment to a field of `comments.id(cid)`: the first sub-document with
that identifier is changed in place. -/
def Comments.assign (cs : List Comment) (cid : ObjectId) (f : Comment → Comment) :
    List Comment :=
  match cs with
  | [] => []
  | c :: rest => if c._id = cid then f c :: rest else c :: Comments.assign rest cid f

/-- Truthiness of `req.body.rating`: absent and `0` are falsy. -/
def truthyRating : Option Int → Bool
  | some r => r != 0
  | none => false

/-- Truthiness of `req.body.comment`: absent and the empty string are falsy. -/
def truthyComment : Option String → Bool
  | some t => t != ""
  | none => false

/-! ## Handlers of `/:dishId/comments` -/

/-- Handler of `GET /:dishId/comments`. -/
def listComments (s : Store) (dishId : ObjectId) : Result :=
  match (findById s.dishes dishId).map (populate s.users) with
  | some dish => ⟨s, .json 200 (.comments dish.comments), none⟩
  | none =>
    let err := newError ("Dish " ++ toString dishId ++ " not found")
    let err := err.setStatusCode 404
    ⟨s, .next err, none⟩

/-- Handler of `POST /:dishId/comments`, run after `verifyUser` stored the
requester in `req.user`. -/
def addComment (s : Store) (dishId : ObjectId) (user : User) (body : Body) : Result :=
  match findById s.dishes dishId with
  | some dish =>
    let body := { body with author := some user._id }
    let dish := { dish with comments := Comments.push dish.comments s.nextId body }
    let s := { s with
      dishes := save s.dishes dish,
      nextId := if body._id.isSome then s.nextId else s.nextId + 1 }
    ⟨s, .json 200 (.dish ((findById s.dishes dish._id).map (populate s.users))), none⟩
  | none =>
    let err := (newError ("Dish " ++ toString dishId)).plus " not found"
    let err := err.setStatusCode 404
    ⟨s, .next err, none⟩

/-- The loop `for (var i = comments.length - 1; i >= 0; i--)` of the delete-all
handler; the first argument is `i + 1`.  Reading `_id` of a missing element or
calling `remove` on null raises a `TypeError`. -/
def removeAllLoop : Nat → List Comment → Except JsErr (List Comment)
  | 0, cs => .ok cs
  | i + 1, cs =>
    match cs[i]? with
    | none => .error .typeError
    | some c =>
      match Comments.id cs c._id with
      | none => .error .typeError
      | some sub => removeAllLoop i (Comments.remove cs sub._id)

/-- Handler of `DELETE /:dishId/comments`, run after `verifyUser` and
`verifyAdmin`. -/
def deleteAllComments (s : Store) (dishId : ObjectId) : Result :=
  match findById s.dishes dishId with
  | some dish =>
    match removeAllLoop dish.comments.length dish.comments with
    | .ok cs =>
      let dish := { dish with comments := cs }
      let s := { s with dishes := save s.dishes dish }
      ⟨s, .json 200 (.saved dish), none⟩
    | .error e => ⟨s, .next e, none⟩
  | none =>
    let err := (newError ("Dish " ++ toString dishId)).plus " not found"
    let err := err.setStatusCode 404
    ⟨s, .next err, none⟩

/-! ## Handlers of `/:dishId/comments/:commentId` -/

/-- Handler of `GET /:dishId/comments/:commentId`. -/
def getComment (s : Store) (dishId commentId : ObjectId) : Result :=
  let dish := (findById s.dishes dishId).map (populate s.users)
  match dish with
  | some d =>
    match PopulatedComments.id d.comments commentId with
    | some c => ⟨s, .json 200 (.comment c), none⟩
    | none =>
      let err := newError ("Comment " ++ toString commentId ++ " not found")
      let err := err.setStatusCode 404
      ⟨s, .next err, none⟩
  | none =>
    let err := newError ("Dish " ++ toString dishId ++ " not found")
    let err := err.setStatusCode 404
    ⟨s, .next err, none⟩

/-- Handler of `PUT /:dishId/comments/:commentId`, run after `verifyUser`. -/
def updateComment (s : Store) (dishId commentId : ObjectId) (user : User) (body : Body) :
    Result :=
  match findById s.dishes dishId with
  | some dish =>
    match Comments.id dish.comments commentId with
    | some c =>
      match c.author with
      | none => ⟨s, .next .typeError, none⟩
      | some author =>
        if user._id = author then
          let cs := dish.comments
          let cs := if truthyRating body.rating
            then Comments.assign cs commentId (fun x => { x with rating := body.rating })
            else cs
          let cs := if truthyComment body.comment
            then Comments.assign cs commentId (fun x => { x with comment := body.comment })
            else cs
          let dish := { dish with comments := cs }
          let s := { s with dishes := save s.dishes dish }
          ⟨s, .json 200 (.dish ((findById s.dishes dish._id).map (populate s.users))), none⟩
        else
          let err := newError "You are not authorised to modify someone else's comment"
          ⟨s, .next err, some 403⟩
    | none =>
      let err := (newError ("Comment " ++ toString commentId)).plus " not found"
      let err := err.setStatusCode 404
      ⟨s, .next err, none⟩
  | none =>
    let err := (newError ("Dish " ++ toString dishId)).plus " not found"
    let err := err.setStatusCode 404
    ⟨s, .next err, none⟩

/-- Handler of `DELETE /:dishId/comments/:commentId`, run after `verifyUser`. -/
def deleteComment (s : Store) (dishId commentId : ObjectId) (user : User) : Result :=
  match findById s.dishes dishId with
  | some dish =>
    match Comments.id dish.comments commentId with
    | some c =>
      match c.author with
      | none => ⟨s, .next .typeError, none⟩
      | some author =>
        if user._id = author then
          let dish := { dish with comments := Comments.remove dish.comments c._id }
          let s := { s with dishes := save s.dishes dish }
          ⟨s, .json 200 (.dish ((findById s.dishes dish._id).map (populate s.users))), none⟩
        else
          let err := newError "You are not authorised to delete someone else's comment"
          ⟨s, .next err, some 403⟩
    | none =>
      let err := (newError ("Comment " ++ toString commentId)).plus " not found"
      let err := err.setStatusCode 404
      ⟨s, .next err, none⟩
  | none =>
    let err := (newError ("Dish " ++ toString dishId)).plus " not found"
    let err := err.setStatusCode 404
    ⟨s, .next err, none⟩

/-! ## The two-stage lookup as the specification words it -/

/-- The `NotFound` error of the specification: status 404 and a message naming
the missing document. -/
def notFound (kind : String) (id : ObjectId) : JsErr :=
  .error (kind ++ " " ++ toString id ++ " not found") (some 404)

/-- The decision of `getComment` as the specification states it, on the stored
dish: dish absent, else comment absent, else that one comment (author
expanded). -/
def getCommentSpec (s : Store) (dishId commentId : ObjectId) : Result :=
  match findById s.dishes dishId with
  | none => ⟨s, .next (notFound "Dish" dishId), none⟩
  | some dish =>
    match Comments.id dish.comments commentId with
    | none => ⟨s, .next (notFound "Comment" commentId), none⟩
    | some c => ⟨s, .json 200 (.comment (populateComment s.users c)), none⟩

/-! ## Request sequences -/

/-- A request to one of the comment routes that reached its handler chain;
`user` is the identity `verifyUser` established. -/
inductive Request where
  | listComments (dishId : ObjectId)
  | addComment (dishId : ObjectId) (user : User) (body : Body)
  | deleteAllComments (dishId : ObjectId) (user : User)
  | getComment (dishId commentId : ObjectId)
  | updateComment (dishId commentId : ObjectId) (user : User) (body : Body)
  | deleteComment (dishId commentId : ObjectId) (user : User)
  deriving DecidableEq, Repr

/-- Route dispatch.  The middleware `authenticate.verifyAdmin` is not part of the
sources and is a parameter: it answers with the error it forwards, or with
`none` when it lets the request through to the handler. -/
def dispatch (verifyAdmin : User → Option JsErr) (s : Store) : Request → Result
  | .listComments dishId => listComments s dishId
  | .addComment dishId user body => addComment s dishId user body
  | .deleteAllComments dishId user =>
    match verifyAdmin user with
    | some err => ⟨s, .next err, none⟩
    | none => deleteAllComments s dishId
  | .getComment dishId commentId => getComment s dishId commentId
  | .updateComment dishId commentId user body => updateComment s dishId commentId user body
  | .deleteComment dishId commentId user => deleteComment s dishId commentId user

/-- The creation record of one request: an add-comment request answered with a
dish created the last comment of that dish, and its creator is the requester.
The record holds the dish identifier, the comment identifier and the identity of
the creator. -/
def creation (r : Request) (res : Result) : List (ObjectId × ObjectId × ObjectId) :=
  match r, res.outcome with
  | .addComment _ user _, .json _ (.dish (some d)) =>
    match d.comments.getLast? with
    | some c => [(d._id, c._id, user._id)]
    | none => []
  | _, _ => []

/-- A store together with the creation records of the requests served so far. -/
structure Traced where
  store : Store
  created : List (ObjectId × ObjectId × ObjectId)
  deriving DecidableEq, Repr

/-- Serving one request. -/
def Traced.step (verifyAdmin : User → Option JsErr) (t : Traced) (r : Request) : Traced :=
  let res := dispatch verifyAdmin t.store r
  { store := res.store, created := t.created ++ creation r res }

/-- Serving a finite sequence of requests, first to last. -/
def Traced.run (verifyAdmin : User → Option JsErr) (t : Traced) (rs : List Request) : Traced :=
  rs.foldl (Traced.step verifyAdmin) t

/-- Comment identifiers are distinct within the dish. -/
def Dish.WellFormed (d : Dish) : Prop := (d.comments.map (fun c => c._id)).Nodup

instance (d : Dish) : Decidable d.WellFormed := by
  unfold Dish.WellFormed; infer_instance

/-- The comment `c'` is the comment `c` after a request: same identifier, same
author. -/
def Comment.Continues (c c' : Comment) : Prop :=
  c'._id = c._id ∧ c'.author = c.author

/-- How one request by `r` may turn the comment list `cs` of a dish into `cs'`:
some comments of `cs` are kept, in their order and each with its identifier and
author, and the comments that follow them in `cs'` are new ones, which only an
add-comment request brings and which have its requester as author. -/
def Comments.Step (r : Request) (cs cs' : List Comment) : Prop :=
  ∃ kept continued added,
    kept.Sublist cs ∧ List.Forall₂ Comment.Continues kept continued ∧
    cs' = continued ++ added ∧
    ∀ c ∈ added, ∃ dishId user body,
      r = .addComment dishId user body ∧ c.author = some user._id

/-- How one request may turn a stored dish into the dish stored in its place. -/
def Dish.Step (r : Request) (d d' : Dish) : Prop :=
  d'._id = d._id ∧ d'.name = d.name ∧ d'.description = d.description ∧
    Comments.Step r d.comments d'.comments

/-- The invariant of request sequences: every stored comment has an author, and
an add-comment request of that author on that dish is recorded as having created
a comment with that identifier. -/
def Traced.Inv (t : Traced) : Prop :=
  ∀ d ∈ t.store.dishes, ∀ c ∈ d.comments,
    ∃ u, c.author = some u ∧ (d._id, c._id, u) ∈ t.created

/-! ## Sample data -/

/-- A registered user. -/
def alice : User := ⟨1, "alice", false⟩

/-- A second registered user. -/
def bob : User := ⟨2, "bob", false⟩

/-- A dish without comments. -/
def plainDish : Dish := ⟨7, "pizza", "thin crust", []⟩

/-- The same dish carrying one comment written by `alice`. -/
def reviewedDish : Dish := ⟨7, "pizza", "thin crust", [⟨100, some 5, some "great", some 1⟩]⟩

/-- A store holding the dish without comments. -/
def plainStore : Store := ⟨[plainDish], [alice, bob], 100⟩

/-- A store holding the dish with the comment of `alice`. -/
def reviewedStore : Store := ⟨[reviewedDish], [alice, bob], 101⟩

/-- A sample for the middleware `verifyAdmin`: it lets users with the `admin` flag
through and answers the others with an error of status 403. -/
def sampleVerifyAdmin (u : User) : Option JsErr :=
  if u.admin then none else some (.error "You are not authorized to perform this operation!" (some 403))

/-- A sample request sequence on the dish without comments: `bob` posts a comment
whose payload names `alice` as author, `alice` tries to rewrite and to delete it,
`bob` rewrites it with a payload naming `alice` again, `alice` posts another
comment under the identifier of the first one and `bob`, who is no administrator,
asks for all comments to be deleted. -/
def sampleRequests : List Request :=
  [ .addComment 7 bob ⟨none, some 4, some "great", some 1⟩,
    .updateComment 7 100 alice ⟨none, some 1, some "bad", some 1⟩,
    .deleteComment 7 100 alice,
    .updateComment 7 100 bob ⟨none, some 3, none, some 1⟩,
    .addComment 7 alice ⟨some 100, some 5, some "superb", none⟩,
    .deleteAllComments 7 bob ]

/-- Three add-comment requests on the dish without comments; the second one,
by `bob`, carries in its body the identifier the first comment received. -/
def duplicateRequests : List Request :=
  [ .addComment 7 alice ⟨none, some 5, some "great", none⟩,
    .addComment 7 bob ⟨some 100, some 1, some "bad", none⟩,
    .addComment 7 alice ⟨none, some 4, some "good", none⟩ ]

/-- The dish after `duplicateRequests`: the comments of `alice` and `bob` share
the identifier 100. -/
def duplicateDish : Dish :=
  ⟨7, "pizza", "thin crust",
    [⟨100, some 5, some "great", some 1⟩, ⟨100, some 1, some "bad", some 2⟩,
     ⟨101, some 4, some "good", some 1⟩]⟩

/-- The store after `duplicateRequests`. -/
def duplicateStore : Store := ⟨[duplicateDish], [alice, bob], 102⟩

/-! ## Lemmas on the store operations -/

theorem findById_nil (id : ObjectId) : findById [] id = none := rfl

theorem findById_cons (x : Dish) (xs : List Dish) (id : ObjectId) :
    findById (x :: xs) id = if x._id = id then some x else findById xs id := by
  by_cases h : x._id = id <;> simp [findById, List.find?_cons, h]

theorem findById_id {ds : List Dish} {id : ObjectId} {d : Dish}
    (h : findById ds id = some d) : d._id = id := by
  unfold findById at h
  have := List.find?_some h
  simpa using this

theorem findById_mem {ds : List Dish} {id : ObjectId} {d : Dish}
    (h : findById ds id = some d) : d ∈ ds := by
  unfold findById at h
  exact List.mem_of_find?_eq_some h

theorem findById_save_self {ds : List Dish} {id : ObjectId} {d : Dish} (d' : Dish)
    (h : findById ds id = some d) (hid : d'._id = id) :
    findById (save ds d') id = some d' := by
  induction ds with
  | nil => simp [findById] at h
  | cons x xs ih =>
    unfold save
    by_cases hx : x._id = d'._id
    · simp [hx, findById, hid]
    · have hx' : x._id ≠ id := by rw [← hid]; exact hx
      simp only [hx, if_false]
      rw [findById_cons, if_neg hx'] at h ⊢
      exact ih h

theorem findById_save_other {ds : List Dish} {id : ObjectId} {d' : Dish}
    (hid : d'._id ≠ id) :
    findById (save ds d') id = findById ds id := by
  induction ds with
  | nil => simp [findById, save]
  | cons x xs ih =>
    unfold save
    by_cases hx : x._id = d'._id
    · have hx' : x._id ≠ id := by rw [hx]; exact hid
      simp [hx, findById, hid, hx']
    · simp only [hx, if_false]
      rw [findById_cons, findById_cons, ih]

theorem mem_save {ds : List Dish} {d' x : Dish} (h : x ∈ save ds d') :
    x ∈ ds ∨ x = d' := by
  induction ds with
  | nil => simp [save] at h
  | cons y ys ih =>
    unfold save at h
    by_cases hy : y._id = d'._id
    · simp [hy] at h
      rcases h with h | h
      · exact Or.inr h
      · exact Or.inl (List.mem_cons_of_mem _ h)
    · simp [hy] at h
      rcases h with h | h
      · exact Or.inl (h ▸ List.mem_cons_self _ _)
      · rcases ih h with h | h
        · exact Or.inl (List.mem_cons_of_mem _ h)
        · exact Or.inr h

theorem save_save (ds : List Dish) (d' : Dish) : save (save ds d') d' = save ds d' := by
  induction ds with
  | nil => simp [save]
  | cons y ys ih =>
    by_cases hy : y._id = d'._id
    · simp [save, hy]
    · simp [save, hy, ih]

/-! ## Adding a comment -/

/-- What `addComment` does on an existing dish, in one equation. -/
theorem addComment_found {s : Store} {dishId : ObjectId} {dish : Dish} (user : User)
    (body : Body) (h : findById s.dishes dishId = some dish) :
    addComment s dishId user body =
      ⟨{ s with
          dishes := save s.dishes { dish with comments := dish.comments ++
            [⟨body._id.getD s.nextId, body.rating, body.comment, some user._id⟩] },
          nextId := if body._id.isSome then s.nextId else s.nextId + 1 },
        .json 200 (.dish (some (populate s.users { dish with comments := dish.comments ++
            [⟨body._id.getD s.nextId, body.rating, body.comment, some user._id⟩] }))),
        none⟩ := by
  have hid := findById_id h
  subst hid
  have hre := findById_save_self { dish with comments := dish.comments ++
            [⟨body._id.getD s.nextId, body.rating, body.comment, some user._id⟩] } h rfl
  simp only [addComment, h, Comments.push, hre, Option.map_some']

/-- Claim C1.  On an existing dish, whatever the payload says in its `author`
field, the comment `addComment` appends to the stored dish has the requester as
author, the comment shown last in the response is expanded from the requester's
identity, and the result does not depend on the `author` field sent by the
client. -/
theorem addComment_author_is_requester (s : Store) (dishId : ObjectId) (dish : Dish)
    (user : User) (body : Body) (h : findById s.dishes dishId = some dish) :
    (∃ c : Comment, c.author = some user._id ∧
      findById (addComment s dishId user body).store.dishes dishId =
        some { dish with comments := dish.comments ++ [c] }) ∧
    (∃ pd : PopulatedDish, ∃ pc : PopulatedComment,
      (addComment s dishId user body).outcome = .json 200 (.dish (some pd)) ∧
      pd.comments.getLast? = some pc ∧ pc.author = findUser s.users user._id) ∧
    (∀ a : Option ObjectId,
      addComment s dishId user { body with author := a } = addComment s dishId user body) := by
  have hid := findById_id h
  refine ⟨⟨⟨body._id.getD s.nextId, body.rating, body.comment, some user._id⟩, rfl, ?_⟩, ?_, ?_⟩
  · rw [addComment_found user body h]
    exact findById_save_self _ h hid
  · rw [addComment_found user body h]
    refine ⟨_, populateComment s.users ⟨body._id.getD s.nextId, body.rating, body.comment, some user._id⟩,
      rfl, ?_, ?_⟩
    · simp [populate]
    · simp [populateComment]
  · intro a
    rw [addComment_found user _ h, addComment_found user body h]

/-- Witness of C1: `bob` posts a comment whose payload names `alice` as author. -/
theorem addComment_author_is_requester_witness :
    findById plainStore.dishes 7 = some plainDish ∧
    (∃ c : Comment, c.author = some bob._id ∧
      findById (addComment plainStore 7 bob ⟨none, some 4, some "great", some 1⟩).store.dishes 7 =
        some { plainDish with comments := plainDish.comments ++ [c] }) :=
  ⟨by decide,
   (addComment_author_is_requester plainStore 7 plainDish bob ⟨none, some 4, some "great", some 1⟩
      (by decide)).1⟩

/-- Claim C9.  On an existing dish with comment list `L`, `addComment` answers
with status 200 and the full dish, stores the dish with comment list `L`
followed by one new comment carrying the payload's rating and text and the
requester as author, makes the list one longer, and leaves every other dish
alone. -/
theorem addComment_appends (s : Store) (dishId : ObjectId) (dish : Dish)
    (user : User) (body : Body) (h : findById s.dishes dishId = some dish) :
    ∃ c : Comment, c.rating = body.rating ∧ c.comment = body.comment ∧
      c.author = some user._id ∧
      findById (addComment s dishId user body).store.dishes dishId =
        some { dish with comments := dish.comments ++ [c] } ∧
      (dish.comments ++ [c]).length = dish.comments.length + 1 ∧
      (addComment s dishId user body).outcome =
        .json 200 (.dish (some
          { _id := dish._id, name := dish.name, description := dish.description,
            comments := dish.comments.map (populateComment s.users) ++
              [⟨c._id, body.rating, body.comment, findUser s.users user._id⟩] })) ∧
      (∀ other, other ≠ dishId →
        findById (addComment s dishId user body).store.dishes other =
          findById s.dishes other) ∧
      (addComment s dishId user body).store.users = s.users := by
  have hid := findById_id h
  refine ⟨⟨body._id.getD s.nextId, body.rating, body.comment, some user._id⟩, rfl, rfl, rfl, ?_, ?_, ?_, ?_, ?_⟩
  · rw [addComment_found user body h]
    exact findById_save_self _ h hid
  · simp
  · rw [addComment_found user body h]
    simp [populate, populateComment]
  · intro other hne
    rw [addComment_found user body h]
    exact findById_save_other (by simpa [hid] using Ne.symm hne)
  · rw [addComment_found user body h]

/-- Witness of C9: `alice` posts rating 4 and the text "great" on the dish
without comments. -/
theorem addComment_appends_witness :
    findById plainStore.dishes 7 = some plainDish ∧
    ∃ c : Comment, c.rating = some 4 ∧ c.comment = some "great" ∧
      c.author = some alice._id ∧
      findById (addComment plainStore 7 alice ⟨none, some 4, some "great", none⟩).store.dishes 7 =
        some { plainDish with comments := plainDish.comments ++ [c] } ∧
      (plainDish.comments ++ [c]).length = plainDish.comments.length + 1 ∧
      (addComment plainStore 7 alice ⟨none, some 4, some "great", none⟩).outcome =
        .json 200 (.dish (some
          { _id := plainDish._id, name := plainDish.name, description := plainDish.description,
            comments := plainDish.comments.map (populateComment plainStore.users) ++
              [⟨c._id, some 4, some "great", findUser plainStore.users alice._id⟩] })) ∧
      (∀ other, other ≠ 7 →
        findById (addComment plainStore 7 alice ⟨none, some 4, some "great", none⟩).store.dishes other =
          findById plainStore.dishes other) ∧
      (addComment plainStore 7 alice ⟨none, some 4, some "great", none⟩).store.users =
        plainStore.users :=
  ⟨by decide,
   addComment_appends plainStore 7 plainDish alice ⟨none, some 4, some "great", none⟩ (by decide)⟩

/-- The scenario of the specification evaluated: rating 4 and the text "great"
posted by `alice` on the dish without comments yields that dish with the one
comment, author expanded. -/
theorem addComment_scenario :
    addComment plainStore 7 alice ⟨none, some 4, some "great", none⟩ =
      ⟨⟨[⟨7, "pizza", "thin crust", [⟨100, some 4, some "great", some 1⟩]⟩], [alice, bob], 101⟩,
       .json 200 (.dish (some ⟨7, "pizza", "thin crust",
        [⟨100, some 4, some "great", some alice⟩]⟩)), none⟩ := by
  decide

/-! ## Requests by somebody who is not the author -/

/-- Claim C3.  When the dish and the comment exist and the requester is not the
stored author of the comment, neither `updateComment` (whatever the body) nor
`deleteComment` persists anything: the store afterwards is the store before. -/
theorem not_owner_nothing_persisted (s : Store) (dishId commentId : ObjectId)
    (dish : Dish) (c : Comment) (user : User) (body : Body)
    (hd : findById s.dishes dishId = some dish)
    (hc : Comments.id dish.comments commentId = some c)
    (hne : c.author ≠ some user._id) :
    (updateComment s dishId commentId user body).store = s ∧
    (deleteComment s dishId commentId user).store = s := by
  constructor
  · simp only [updateComment, hd, hc]
    cases ha : c.author with
    | none => rfl
    | some a =>
      have : user._id ≠ a := fun e => hne (by rw [ha, e])
      simp [this]
  · simp only [deleteComment, hd, hc]
    cases ha : c.author with
    | none => rfl
    | some a =>
      have : user._id ≠ a := fun e => hne (by rw [ha, e])
      simp [this]

/-- Witness of C3: `bob` addresses the comment written by `alice`, with a body
that carries every field. -/
theorem not_owner_nothing_persisted_witness :
    (updateComment reviewedStore 7 100 bob ⟨none, some 1, some "bad", some 2⟩).store = reviewedStore ∧
    (deleteComment reviewedStore 7 100 bob).store = reviewedStore :=
  not_owner_nothing_persisted reviewedStore 7 100 reviewedDish
    ⟨100, some 5, some "great", some 1⟩ bob ⟨none, some 1, some "bad", some 2⟩
    (by decide) (by decide) (by decide)

/-- What the two handlers forward when the requester is not the author: an
`Error` with the message and without a `statusCode`; the number 403 is stored
on the request object. -/
theorem not_owner_outcome (s : Store) (dishId commentId : ObjectId)
    (dish : Dish) (c : Comment) (user : User) (body : Body) (a : ObjectId)
    (hd : findById s.dishes dishId = some dish)
    (hc : Comments.id dish.comments commentId = some c)
    (ha : c.author = some a) (hne : a ≠ user._id) :
    updateComment s dishId commentId user body =
      ⟨s, .next (.error "You are not authorised to modify someone else's comment" none),
        some 403⟩ ∧
    deleteComment s dishId commentId user =
      ⟨s, .next (.error "You are not authorised to delete someone else's comment" none),
        some 403⟩ := by
  have : user._id ≠ a := fun e => hne e.symm
  constructor
  · simp [updateComment, hd, hc, ha, this, newError]
  · simp [deleteComment, hd, hc, ha, this, newError]

/-- Claim C2, the code at the failing input: `bob` updates, then deletes, the
comment written by `alice`.  The error forwarded to `next` has the expected
message but no `statusCode`; the value 403 went to `req.statusCode`. -/
theorem not_owner_error_has_no_status :
    updateComment reviewedStore 7 100 bob ⟨none, some 1, none, none⟩ =
      ⟨reviewedStore,
        .next (.error "You are not authorised to modify someone else's comment" none),
        some 403⟩ ∧
    deleteComment reviewedStore 7 100 bob =
      ⟨reviewedStore,
        .next (.error "You are not authorised to delete someone else's comment" none),
        some 403⟩ ∧
    (JsErr.error "You are not authorised to modify someone else's comment" none).statusCode
      ≠ some 403 := by
  decide

/-! ## Missing dish -/

/-- The two read handlers forward the `NotFound` error for a missing dish. -/
theorem read_handlers_missing_dish (s : Store) (dishId commentId : ObjectId)
    (h : findById s.dishes dishId = none) :
    listComments s dishId = ⟨s, .next (notFound "Dish" dishId), none⟩ ∧
    getComment s dishId commentId = ⟨s, .next (notFound "Dish" dishId), none⟩ := by
  simp [listComments, getComment, h, notFound, newError, JsErr.setStatusCode]

/-- The four writing handlers forward a primitive string for a missing dish: the
text of the `Error` object followed by " not found", on which the assignment of
`statusCode` is lost.  The store is unchanged. -/
theorem write_handlers_missing_dish (s : Store) (dishId commentId : ObjectId) (user : User)
    (body : Body) (h : findById s.dishes dishId = none) :
    addComment s dishId user body =
      ⟨s, .next (.str ("Error: Dish " ++ toString dishId ++ " not found")), none⟩ ∧
    deleteAllComments s dishId =
      ⟨s, .next (.str ("Error: Dish " ++ toString dishId ++ " not found")), none⟩ ∧
    updateComment s dishId commentId user body =
      ⟨s, .next (.str ("Error: Dish " ++ toString dishId ++ " not found")), none⟩ ∧
    deleteComment s dishId commentId user =
      ⟨s, .next (.str ("Error: Dish " ++ toString dishId ++ " not found")), none⟩ := by
  have e : (("Dish " ++ toString dishId : String) = "") = False := by
    simp [String.ext_iff]
  have e2 : ∀ x : String, "Error: " ++ ("Dish " ++ x) = "Error: Dish " ++ x := fun x => by
    rw [← String.append_assoc]; rfl
  simp [addComment, deleteAllComments, updateComment, deleteComment, h, newError,
    JsErr.setStatusCode, JsErr.plus, JsErr.toStr, e, String.append_assoc, e2]

/-- Claim C4, the code at the failing input: dish 8 is not in the store.  The
two read handlers forward the error with status 404 and message
"Dish 8 not found"; the four writing handlers forward the string
"Error: Dish 8 not found", which has neither a `statusCode` nor a `message`. -/
theorem missing_dish_on_comment_routes :
    listComments plainStore 8 =
      ⟨plainStore, .next (.error "Dish 8 not found" (some 404)), none⟩ ∧
    getComment plainStore 8 100 =
      ⟨plainStore, .next (.error "Dish 8 not found" (some 404)), none⟩ ∧
    addComment plainStore 8 alice ⟨none, some 4, some "great", none⟩ =
      ⟨plainStore, .next (.str "Error: Dish 8 not found"), none⟩ ∧
    deleteAllComments plainStore 8 =
      ⟨plainStore, .next (.str "Error: Dish 8 not found"), none⟩ ∧
    updateComment plainStore 8 100 alice ⟨none, some 4, none, none⟩ =
      ⟨plainStore, .next (.str "Error: Dish 8 not found"), none⟩ ∧
    deleteComment plainStore 8 100 alice =
      ⟨plainStore, .next (.str "Error: Dish 8 not found"), none⟩ ∧
    (JsErr.str "Error: Dish 8 not found").statusCode = none ∧
    (JsErr.str "Error: Dish 8 not found").message = none := by
  decide

/-! ## Lemmas on the sub-document operations -/

theorem Comments.id_nil (cid : ObjectId) : Comments.id [] cid = none := rfl

theorem Comments.id_cons (c : Comment) (cs : List Comment) (cid : ObjectId) :
    Comments.id (c :: cs) cid = if c._id = cid then some c else Comments.id cs cid := by
  by_cases h : c._id = cid <;> simp [Comments.id, List.find?_cons, h]

theorem Comments.id_eq_some {cs : List Comment} {cid : ObjectId} {c : Comment}
    (h : Comments.id cs cid = some c) :
    c._id = cid ∧ ∃ before after, cs = before ++ c :: after ∧ ∀ x ∈ before, x._id ≠ cid := by
  induction cs with
  | nil => simp [Comments.id_nil] at h
  | cons y ys ih =>
    rw [Comments.id_cons] at h
    by_cases hy : y._id = cid
    · rw [if_pos hy] at h
      cases h
      exact ⟨hy, [], ys, rfl, by simp⟩
    · rw [if_neg hy] at h
      obtain ⟨hc, before, after, hsplit, hb⟩ := ih h
      refine ⟨hc, y :: before, after, by rw [hsplit]; rfl, ?_⟩
      intro x hx
      rcases List.mem_cons.1 hx with rfl | hx
      · exact hy
      · exact hb x hx

theorem Comments.id_populate (us : List User) (cs : List Comment) (cid : ObjectId) :
    PopulatedComments.id (cs.map (populateComment us)) cid =
      (Comments.id cs cid).map (populateComment us) := by
  induction cs with
  | nil => rfl
  | cons y ys ih =>
    rw [Comments.id_cons]
    by_cases hy : y._id = cid
    · simp [PopulatedComments.id, populateComment, hy]
    · rw [if_neg hy, ← ih]
      simp [PopulatedComments.id, populateComment, hy]

theorem Comments.assign_split (before after : List Comment) (c : Comment) (cid : ObjectId)
    (f : Comment → Comment) (hc : c._id = cid) (hb : ∀ x ∈ before, x._id ≠ cid) :
    Comments.assign (before ++ c :: after) cid f = before ++ f c :: after := by
  induction before with
  | nil => simp [Comments.assign, hc]
  | cons y ys ih =>
    have hy : y._id ≠ cid := hb y (List.mem_cons_self _ _)
    have := ih (fun x hx => hb x (List.mem_cons_of_mem _ hx))
    simp [Comments.assign, hy, this]

theorem Comments.remove_split (before after : List Comment) (c : Comment)
    (hnd : ((before ++ c :: after).map (fun x => x._id)).Nodup) :
    Comments.remove (before ++ c :: after) c._id = before ++ after := by
  rw [List.map_append, List.map_cons, List.nodup_append] at hnd
  obtain ⟨_, hright, hdisj⟩ := hnd
  rw [List.nodup_cons] at hright
  have hb : ∀ x ∈ before, x._id ≠ c._id := by
    intro x hx e
    exact hdisj (List.mem_map_of_mem _ hx) (e ▸ List.mem_cons_self _ _)
  have ha : ∀ x ∈ after, x._id ≠ c._id := by
    intro x hx e
    exact hright.1 (e ▸ List.mem_map_of_mem (fun x => x._id) hx)
  unfold Comments.remove
  rw [List.filter_append, List.filter_cons]
  simp only [bne_self_eq_false, Bool.false_eq_true, if_false]
  congr 1
  · exact List.filter_eq_self.2 (fun x hx => by simpa using hb x hx)
  · exact List.filter_eq_self.2 (fun x hx => by simpa using ha x hx)

theorem Comments.not_mem_remove (cs : List Comment) (cid : ObjectId) :
    ∀ x ∈ Comments.remove cs cid, x._id ≠ cid := by
  intro x hx
  simpa [Comments.remove] using (List.mem_filter.1 hx).2

theorem removeAllLoop_wellFormed :
    ∀ (n : Nat) (cs : List Comment), cs.length = n →
      (cs.map (fun x => x._id)).Nodup → removeAllLoop n cs = .ok []
  | 0, cs, hlen, _ => by
    rw [List.length_eq_zero.1 hlen]; rfl
  | i + 1, cs, hlen, hnd => by
    rcases List.eq_nil_or_concat cs with rfl | ⟨front, c, rfl⟩
    · simp at hlen
    · rw [List.concat_eq_append] at hlen hnd ⊢
      have hfront : front.length = i := by simpa using hlen
      have hget : (front ++ [c])[i]? = some c := by
        rw [← hfront]; simp
      have hsome : ∃ sub, Comments.id (front ++ [c]) c._id = some sub := by
        cases hfind : Comments.id (front ++ [c]) c._id with
        | some sub => exact ⟨sub, rfl⟩
        | none =>
          have := List.find?_eq_none.1 hfind c (by simp)
          simp at this
      obtain ⟨sub, hsub⟩ := hsome
      have hid : sub._id = c._id := (Comments.id_eq_some hsub).1
      have hrem : Comments.remove (front ++ [c]) c._id = front := by
        simpa using Comments.remove_split front [] c hnd
      have hnd' : (front.map (fun x => x._id)).Nodup := by
        rw [List.map_append, List.nodup_append] at hnd
        exact hnd.1
      unfold removeAllLoop
      simp only [hget, hsub, hid, hrem]
      exact removeAllLoop_wellFormed i front hfront hnd'

/-! ## Reading one comment -/

/-- Claim C8.  `getComment` decides in two stages on the stored dish, exactly as
the specification words it (`getCommentSpec`): a missing dish gives the error
with status 404 and message "Dish <id> not found"; an existing dish without a
comment of that identifier gives status 404 and "Comment <cid> not found";
otherwise the answer is status 200 with the comment of the dish that carries the
identifier, author expanded.  The store is never changed. -/
theorem getComment_two_stage (s : Store) (dishId commentId : ObjectId) :
    getComment s dishId commentId = getCommentSpec s dishId commentId ∧
    (getComment s dishId commentId).store = s ∧
    (findById s.dishes dishId = none →
      (getComment s dishId commentId).outcome =
        .next (.error ("Dish " ++ toString dishId ++ " not found") (some 404))) ∧
    (∀ dish, findById s.dishes dishId = some dish →
      Comments.id dish.comments commentId = none →
      (getComment s dishId commentId).outcome =
        .next (.error ("Comment " ++ toString commentId ++ " not found") (some 404))) ∧
    (∀ dish c, findById s.dishes dishId = some dish →
      Comments.id dish.comments commentId = some c →
      c ∈ dish.comments ∧ c._id = commentId ∧
      (getComment s dishId commentId).outcome =
        .json 200 (.comment (populateComment s.users c))) := by
  have key : getComment s dishId commentId = getCommentSpec s dishId commentId := by
    unfold getComment getCommentSpec
    cases hd : findById s.dishes dishId with
    | none => simp [notFound, newError, JsErr.setStatusCode, String.append_assoc]
    | some dish =>
      simp only [Option.map_some', populate, Comments.id_populate]
      cases hc : Comments.id dish.comments commentId with
      | none => simp [notFound, newError, JsErr.setStatusCode, String.append_assoc]
      | some c => simp
  refine ⟨key, ?_, ?_, ?_, ?_⟩
  · rw [key]; unfold getCommentSpec
    cases findById s.dishes dishId with
    | none => rfl
    | some dish => simp only []; cases Comments.id dish.comments commentId <;> rfl
  · intro hd
    rw [key]; simp [getCommentSpec, hd, notFound, String.append_assoc]
  · intro dish hd hc
    rw [key]; simp [getCommentSpec, hd, hc, notFound, String.append_assoc]
  · intro dish c hd hc
    refine ⟨List.mem_of_find?_eq_some hc, (Comments.id_eq_some hc).1, ?_⟩
    rw [key]; simp [getCommentSpec, hd, hc]

/-! ## Deleting all comments -/

/-- The delete-all handler on a dish whose comment identifiers are distinct: with
any number of comments, the removal loop ends with the empty list, and
`deleteAllComments` answers with status 200 and the dish with an empty comment
list, stores that dish with its other fields as they were and leaves the other
dishes alone; a second call on the result answers the same and changes
nothing. -/
theorem deleteAllComments_idempotent (s : Store) (dishId : ObjectId) (dish : Dish)
    (hd : findById s.dishes dishId = some dish) (hwf : dish.WellFormed) :
    removeAllLoop dish.comments.length dish.comments = .ok [] ∧
    deleteAllComments s dishId =
      ⟨{ s with dishes := save s.dishes { dish with comments := [] } },
        .json 200 (.saved { dish with comments := [] }), none⟩ ∧
    findById (deleteAllComments s dishId).store.dishes dishId =
      some { dish with comments := [] } ∧
    (∀ other, other ≠ dishId →
      findById (deleteAllComments s dishId).store.dishes other = findById s.dishes other) ∧
    deleteAllComments (deleteAllComments s dishId).store dishId =
      ⟨(deleteAllComments s dishId).store,
        .json 200 (.saved { dish with comments := [] }), none⟩ := by
  have hloop := removeAllLoop_wellFormed dish.comments.length dish.comments rfl hwf
  have hid := findById_id hd
  have h1 : deleteAllComments s dishId =
      ⟨{ s with dishes := save s.dishes { dish with comments := [] } },
        .json 200 (.saved { dish with comments := [] }), none⟩ := by
    simp only [deleteAllComments, hd, hloop]
  have h2 : findById (save s.dishes { dish with comments := [] }) dishId =
      some { dish with comments := [] } := findById_save_self _ hd hid
  refine ⟨hloop, h1, ?_, ?_, ?_⟩
  · rw [h1]; exact h2
  · intro other hne
    rw [h1]
    exact findById_save_other (by simpa [hid] using Ne.symm hne)
  · rw [h1]
    simp only [deleteAllComments, h2, List.length_nil, removeAllLoop, save_save]

/-- An instance of `deleteAllComments_idempotent`: the dish with one comment. -/
theorem deleteAllComments_idempotent_witness :
    findById reviewedStore.dishes 7 = some reviewedDish ∧ reviewedDish.WellFormed ∧
    deleteAllComments (deleteAllComments reviewedStore 7).store 7 =
      ⟨(deleteAllComments reviewedStore 7).store,
        .json 200 (.saved { reviewedDish with comments := [] }), none⟩ :=
  ⟨by decide, by decide,
   (deleteAllComments_idempotent reviewedStore 7 reviewedDish (by decide) (by decide)).2.2.2.2⟩

/-! ## Updating and deleting a comment as its author -/

/-- The two guarded assignments of `updateComment` on a split comment list. -/
theorem Comments.assign_fields (before after : List Comment) (c : Comment) (cid : ObjectId)
    (body : Body) (hc : c._id = cid) (hb : ∀ x ∈ before, x._id ≠ cid) :
    (if truthyComment body.comment = true then
        Comments.assign
          (if truthyRating body.rating = true then
            Comments.assign (before ++ c :: after) cid (fun x => { x with rating := body.rating })
          else before ++ c :: after)
          cid (fun x => { x with comment := body.comment })
      else
        (if truthyRating body.rating = true then
          Comments.assign (before ++ c :: after) cid (fun x => { x with rating := body.rating })
        else before ++ c :: after)) =
      before ++
        { c with
          rating := if truthyRating body.rating then body.rating else c.rating,
          comment := if truthyComment body.comment then body.comment else c.comment }
        :: after := by
  by_cases hr : truthyRating body.rating = true <;>
    by_cases ht : truthyComment body.comment = true <;>
    simp only [hr, ht, if_true, if_false, Bool.false_eq_true]
  · rw [Comments.assign_split before after c cid _ hc hb,
      Comments.assign_split before after _ cid _ (by exact hc) hb]
  · rw [Comments.assign_split before after c cid _ hc hb]
  · rw [Comments.assign_split before after c cid _ hc hb]

/-- The result of `updateComment` for the author of the addressed comment. -/
theorem updateComment_owner_eq {s : Store} {dishId commentId : ObjectId} {dish : Dish}
    {c : Comment} {before after : List Comment} (user : User) (body : Body)
    (hd : findById s.dishes dishId = some dish)
    (hc : Comments.id dish.comments commentId = some c)
    (ha : c.author = some user._id)
    (hsplit : dish.comments = before ++ c :: after)
    (hb : ∀ x ∈ before, x._id ≠ commentId) :
    updateComment s dishId commentId user body =
      ⟨{ s with dishes := save s.dishes { dish with comments := before ++
          { c with
            rating := if truthyRating body.rating then body.rating else c.rating,
            comment := if truthyComment body.comment then body.comment else c.comment }
          :: after } },
        .json 200 (.dish (some (populate s.users { dish with comments := before ++
          { c with
            rating := if truthyRating body.rating then body.rating else c.rating,
            comment := if truthyComment body.comment then body.comment else c.comment }
          :: after }))),
        none⟩ := by
  have hid := findById_id hd
  subst hid
  have hcid : c._id = commentId := (Comments.id_eq_some hc).1
  have hre := fun (d' : Dish) (h : d'._id = dish._id) => findById_save_self d' hd h
  rw [hsplit] at hc
  simp only [updateComment, hd, hsplit, hc, ha, if_true]
  rw [Comments.assign_fields before after c commentId body hcid hb]
  simp only [hre, ha, Option.map_some']

/-- Claim C6, amended.  When the dish and the comment exist and the requester is
the stored author, `updateComment` answers with status 200 and the full updated
dish; in the stored dish the addressed comment has the body's rating when the
body provides a non-zero one and its old rating otherwise, the body's text when
the body provides a non-empty one and its old text otherwise; its identifier and
author, the other comments, their order, the other dish fields and the other
dishes are unchanged. -/
theorem updateComment_by_author (s : Store) (dishId commentId : ObjectId) (dish : Dish)
    (c : Comment) (user : User) (body : Body)
    (hd : findById s.dishes dishId = some dish)
    (hc : Comments.id dish.comments commentId = some c)
    (ha : c.author = some user._id) :
    ∃ before after c',
      dish.comments = before ++ c :: after ∧ (∀ x ∈ before, x._id ≠ commentId) ∧
      c'._id = c._id ∧ c'.author = c.author ∧
      c'.rating = (if truthyRating body.rating then body.rating else c.rating) ∧
      c'.comment = (if truthyComment body.comment then body.comment else c.comment) ∧
      findById (updateComment s dishId commentId user body).store.dishes dishId =
        some { dish with comments := before ++ c' :: after } ∧
      (updateComment s dishId commentId user body).outcome =
        .json 200 (.dish (some (populate s.users
          { dish with comments := before ++ c' :: after }))) ∧
      (∀ other, other ≠ dishId →
        findById (updateComment s dishId commentId user body).store.dishes other =
          findById s.dishes other) ∧
      (updateComment s dishId commentId user body).store.users = s.users ∧
      (updateComment s dishId commentId user body).store.nextId = s.nextId := by
  obtain ⟨_, before, after, hsplit, hb⟩ := Comments.id_eq_some hc
  have hid := findById_id hd
  have heq := updateComment_owner_eq user body hd hc ha hsplit hb
  refine ⟨before, after,
    { c with
      rating := if truthyRating body.rating then body.rating else c.rating,
      comment := if truthyComment body.comment then body.comment else c.comment },
    hsplit, hb, rfl, rfl, rfl, rfl, ?_, ?_, ?_, ?_, ?_⟩
  · rw [heq]; exact findById_save_self _ hd hid
  · rw [heq]
  · intro other hne
    rw [heq]
    exact findById_save_other (by simpa [hid] using Ne.symm hne)
  · rw [heq]
  · rw [heq]

/-- Witness of C6 (amended): `alice` rewrites a comment `alice` wrote. -/
theorem updateComment_by_author_witness :
    findById reviewedStore.dishes 7 = some reviewedDish ∧
    Comments.id reviewedDish.comments 100 = some ⟨100, some 5, some "great", some 1⟩ ∧
    ∃ before after c',
      reviewedDish.comments = before ++ ⟨100, some 5, some "great", some 1⟩ :: after ∧
      (∀ x ∈ before, x._id ≠ 100) ∧
      c'._id = 100 ∧ c'.author = some 1 ∧
      c'.rating = some 3 ∧
      c'.comment = some "fine" ∧
      findById (updateComment reviewedStore 7 100 alice
          ⟨none, some 3, some "fine", none⟩).store.dishes 7 =
        some { reviewedDish with comments := before ++ c' :: after } ∧
      (updateComment reviewedStore 7 100 alice ⟨none, some 3, some "fine", none⟩).outcome =
        .json 200 (.dish (some (populate reviewedStore.users
          { reviewedDish with comments := before ++ c' :: after }))) ∧
      (∀ other, other ≠ 7 →
        findById (updateComment reviewedStore 7 100 alice
            ⟨none, some 3, some "fine", none⟩).store.dishes other =
          findById reviewedStore.dishes other) ∧
      (updateComment reviewedStore 7 100 alice ⟨none, some 3, some "fine", none⟩).store.users =
        reviewedStore.users ∧
      (updateComment reviewedStore 7 100 alice ⟨none, some 3, some "fine", none⟩).store.nextId =
        reviewedStore.nextId :=
  ⟨by decide, by decide,
   updateComment_by_author reviewedStore 7 100 reviewedDish
     ⟨100, some 5, some "great", some 1⟩ alice ⟨none, some 3, some "fine", none⟩
     (by decide) (by decide) (by decide)⟩

/-- Claim C6 as stated fails: `alice` sends rating 0 and the empty text for the
comment `alice` wrote (rating 5, text "great").  The body provides both fields, yet the
comment stored afterwards still has rating 5 and the text "great", which are not
the values the body provides. -/
theorem updateComment_falsy_fields_ignored :
    findById reviewedStore.dishes 7 = some reviewedDish ∧
    Comments.id reviewedDish.comments 100 = some ⟨100, some 5, some "great", some alice._id⟩ ∧
    (findById (updateComment reviewedStore 7 100 alice ⟨none, some 0, some "", none⟩).store.dishes
        7).bind (fun d => Comments.id d.comments 100) =
      some ⟨100, some 5, some "great", some alice._id⟩ ∧
    (some 5 : Option Int) ≠ (⟨none, some 0, some "", none⟩ : Body).rating ∧
    (some "great" : Option String) ≠ (⟨none, some 0, some "", none⟩ : Body).comment := by
  decide

/-- The result of `deleteComment` for the author of the addressed comment. -/
theorem deleteComment_owner_eq {s : Store} {dishId commentId : ObjectId} {dish : Dish}
    {c : Comment} (user : User)
    (hd : findById s.dishes dishId = some dish)
    (hc : Comments.id dish.comments commentId = some c)
    (ha : c.author = some user._id) :
    deleteComment s dishId commentId user =
      ⟨{ s with
          dishes :=
            save s.dishes { dish with comments := Comments.remove dish.comments commentId } },
        .json 200 (.dish (some (populate s.users
          { dish with comments := Comments.remove dish.comments commentId }))),
        none⟩ := by
  have hid := findById_id hd
  subst hid
  have hcid : c._id = commentId := (Comments.id_eq_some hc).1
  have hre := fun (d' : Dish) (h : d'._id = dish._id) => findById_save_self d' hd h
  simp only [deleteComment, hd, hc, ha, if_true, hcid, hre, Option.map_some']

/-- The delete handler on a dish with distinct comment identifiers: when the dish
contains the comment and the requester is its stored author, `deleteComment` answers with
status 200 and the full updated dish, and the stored comment list is the old
list with that one comment taken out: one shorter, no comment with the
identifier left, every other comment unchanged and in its place; the other dish
fields and the other dishes are unchanged. -/
theorem deleteComment_by_author (s : Store) (dishId commentId : ObjectId) (dish : Dish)
    (c : Comment) (user : User)
    (hd : findById s.dishes dishId = some dish) (hwf : dish.WellFormed)
    (hc : Comments.id dish.comments commentId = some c)
    (ha : c.author = some user._id) :
    ∃ before after,
      dish.comments = before ++ c :: after ∧
      findById (deleteComment s dishId commentId user).store.dishes dishId =
        some { dish with comments := before ++ after } ∧
      (before ++ after).length + 1 = dish.comments.length ∧
      (∀ x ∈ before ++ after, x._id ≠ commentId) ∧
      (deleteComment s dishId commentId user).outcome =
        .json 200 (.dish (some (populate s.users { dish with comments := before ++ after }))) ∧
      (∀ other, other ≠ dishId →
        findById (deleteComment s dishId commentId user).store.dishes other =
          findById s.dishes other) ∧
      (deleteComment s dishId commentId user).store.users = s.users ∧
      (deleteComment s dishId commentId user).store.nextId = s.nextId := by
  obtain ⟨hcid, before, after, hsplit, _⟩ := Comments.id_eq_some hc
  have hid := findById_id hd
  have heq := deleteComment_owner_eq user hd hc ha
  have hrem : Comments.remove dish.comments commentId = before ++ after := by
    unfold Dish.WellFormed at hwf
    rw [hsplit] at hwf ⊢
    rw [← hcid]
    exact Comments.remove_split before after c hwf
  rw [hrem] at heq
  refine ⟨before, after, hsplit, ?_, ?_, ?_, ?_, ?_, ?_, ?_⟩
  · rw [heq]; exact findById_save_self _ hd hid
  · rw [hsplit]; simp only [List.length_append, List.length_cons]; omega
  · rw [← hrem]; exact Comments.not_mem_remove _ _
  · rw [heq]
  · intro other hne
    rw [heq]
    exact findById_save_other (by simpa [hid] using Ne.symm hne)
  · rw [heq]
  · rw [heq]

/-- An instance of `deleteComment_by_author`: `alice` deletes a comment `alice`
wrote. -/
theorem deleteComment_by_author_witness :
    findById reviewedStore.dishes 7 = some reviewedDish ∧ reviewedDish.WellFormed ∧
    Comments.id reviewedDish.comments 100 = some ⟨100, some 5, some "great", some 1⟩ ∧
    ∃ before after,
      reviewedDish.comments = before ++ ⟨100, some 5, some "great", some 1⟩ :: after ∧
      findById (deleteComment reviewedStore 7 100 alice).store.dishes 7 =
        some { reviewedDish with comments := before ++ after } ∧
      (before ++ after).length + 1 = reviewedDish.comments.length ∧
      (∀ x ∈ before ++ after, x._id ≠ 100) ∧
      (deleteComment reviewedStore 7 100 alice).outcome =
        .json 200 (.dish (some (populate reviewedStore.users
          { reviewedDish with comments := before ++ after }))) ∧
      (∀ other, other ≠ 7 →
        findById (deleteComment reviewedStore 7 100 alice).store.dishes other =
          findById reviewedStore.dishes other) ∧
      (deleteComment reviewedStore 7 100 alice).store.users = reviewedStore.users ∧
      (deleteComment reviewedStore 7 100 alice).store.nextId = reviewedStore.nextId :=
  ⟨by decide, by decide, by decide,
   deleteComment_by_author reviewedStore 7 100 reviewedDish
     ⟨100, some 5, some "great", some 1⟩ alice (by decide) (by decide) (by decide) (by decide)⟩

/-! ## Comments that share an identifier -/

/-- Claim C5, the code at the failing input.  Three add-comment requests, the
second carrying the identifier of the first comment in its body, lead to a dish
whose comments have the identifiers 100, 100 and 101.  On that dish the removal
loop ends in a `TypeError`: its second step pulls both comments 100 and its
third step reads `_id` of a missing element.  `deleteAllComments` forwards the
`TypeError` to `next` and saves nothing, so the comments stay. -/
theorem deleteAllComments_duplicate_ids :
    (Traced.run sampleVerifyAdmin ⟨plainStore, []⟩ duplicateRequests).store = duplicateStore ∧
    findById duplicateStore.dishes 7 = some duplicateDish ∧
    removeAllLoop 1 (Comments.remove (Comments.remove duplicateDish.comments 101) 100) =
      .error .typeError ∧
    removeAllLoop duplicateDish.comments.length duplicateDish.comments = .error .typeError ∧
    deleteAllComments duplicateStore 7 = ⟨duplicateStore, .next .typeError, none⟩ :=
  ⟨by decide, by decide, rfl, rfl, by decide⟩

/-- Claim C7, the code at the failing input.  On the dish whose comments have
the identifiers 100 (by `alice`), 100 (by `bob`) and 101, `alice` deletes comment
100 as its author: the answer is status 200, and the stored list has lost both
comments 100, the one of `bob` included; it is two shorter, not one. -/
theorem deleteComment_duplicate_ids :
    (Traced.run sampleVerifyAdmin ⟨plainStore, []⟩ duplicateRequests).store = duplicateStore ∧
    findById duplicateStore.dishes 7 = some duplicateDish ∧
    Comments.id duplicateDish.comments 100 = some ⟨100, some 5, some "great", some alice._id⟩ ∧
    deleteComment duplicateStore 7 100 alice =
      ⟨⟨[⟨7, "pizza", "thin crust", [⟨101, some 4, some "good", some 1⟩]⟩], [alice, bob], 102⟩,
        .json 200 (.dish (some ⟨7, "pizza", "thin crust",
          [⟨101, some 4, some "good", some alice⟩]⟩)), none⟩ ∧
    (⟨100, some 1, some "bad", some bob._id⟩ : Comment) ∈ duplicateDish.comments ∧
    [(⟨101, some 4, some "good", some 1⟩ : Comment)].length + 1 ≠
      duplicateDish.comments.length := by
  decide

/-! ## What one request does to the comments -/

theorem Comment.continues_self (c : Comment) : Comment.Continues c c := ⟨rfl, rfl⟩

theorem Comments.continues_refl (cs : List Comment) :
    List.Forall₂ Comment.Continues cs cs := by
  induction cs with
  | nil => exact List.Forall₂.nil
  | cons c cs ih => exact List.Forall₂.cons (Comment.continues_self c) ih

theorem Comments.continues_mem {kept continued : List Comment}
    (h : List.Forall₂ Comment.Continues kept continued) :
    ∀ c' ∈ continued, ∃ c ∈ kept, Comment.Continues c c' := by
  induction h with
  | nil => intro c' hc'; cases hc'
  | cons hab _ ih =>
    intro c' hc'
    rcases List.mem_cons.1 hc' with rfl | hc'
    · exact ⟨_, List.mem_cons_self _ _, hab⟩
    · obtain ⟨c, hc, h⟩ := ih c' hc'
      exact ⟨c, List.mem_cons_of_mem _ hc, h⟩

/-- A request that leaves a sublist of the comments as they are. -/
theorem Comments.Step.of_sublist (r : Request) {cs cs' : List Comment}
    (h : cs'.Sublist cs) : Comments.Step r cs cs' :=
  ⟨cs', cs', [], h, Comments.continues_refl cs', by simp, fun c hc => by cases hc⟩

theorem Comments.step_self (r : Request) (cs : List Comment) : Comments.Step r cs cs :=
  Comments.Step.of_sublist r (List.Sublist.refl cs)

/-- A request that changes one comment into a comment with the same identifier
and author. -/
theorem Comments.Step.of_update (r : Request) (before after : List Comment) (c c' : Comment)
    (h : Comment.Continues c c') :
    Comments.Step r (before ++ c :: after) (before ++ c' :: after) := by
  refine ⟨before ++ c :: after, before ++ c' :: after, [], List.Sublist.refl _, ?_,
    by simp, fun x hx => by cases hx⟩
  exact List.rel_append (Comments.continues_refl before)
    (List.Forall₂.cons h (Comments.continues_refl after))

/-- An add-comment request that appends a comment with its requester as author. -/
theorem Comments.Step.of_add (dishId : ObjectId) (user : User) (body : Body)
    (cs : List Comment) (c : Comment) (h : c.author = some user._id) :
    Comments.Step (.addComment dishId user body) cs (cs ++ [c]) := by
  refine ⟨cs, cs, [c], List.Sublist.refl _, Comments.continues_refl cs, rfl, ?_⟩
  intro x hx
  rw [List.mem_singleton] at hx
  exact ⟨dishId, user, body, rfl, hx ▸ h⟩

theorem removeAllLoop_sublist :
    ∀ (n : Nat) (cs cs' : List Comment), removeAllLoop n cs = .ok cs' → cs'.Sublist cs
  | 0, cs, cs', h => by
    simp only [removeAllLoop, Except.ok.injEq] at h
    subst h; exact List.Sublist.refl _
  | i + 1, cs, cs', h => by
    unfold removeAllLoop at h
    cases hget : cs[i]? with
    | none => simp [hget] at h
    | some c =>
      cases hsub : Comments.id cs c._id with
      | none => simp [hget, hsub] at h
      | some sub =>
        simp only [hget, hsub] at h
        exact (removeAllLoop_sublist i _ cs' h).trans (List.filter_sublist _)

theorem Dish.step_same (r : Request) (d : Dish) : Dish.Step r d d :=
  ⟨rfl, rfl, rfl, Comments.step_self r d.comments⟩

theorem Dish.step_refl_list (r : Request) (ds : List Dish) :
    List.Forall₂ (Dish.Step r) ds ds := by
  induction ds with
  | nil => exact List.Forall₂.nil
  | cons d ds ih => exact List.Forall₂.cons (Dish.step_same r d) ih

/-- Saving a changed copy of the dish `findById` returned relates the stored
dishes one to one. -/
theorem Dish.step_save (r : Request) {ds : List Dish} {id : ObjectId} {dish : Dish}
    (cs' : List Comment) (hf : findById ds id = some dish)
    (hstep : Comments.Step r dish.comments cs') :
    List.Forall₂ (Dish.Step r) ds (save ds { dish with comments := cs' }) := by
  induction ds with
  | nil => simp [findById_nil] at hf
  | cons x xs ih =>
    have hid := findById_id hf
    rw [findById_cons] at hf
    unfold save
    by_cases hx : x._id = id
    · rw [if_pos hx] at hf
      cases hf
      rw [if_pos rfl]
      exact List.Forall₂.cons ⟨rfl, rfl, rfl, hstep⟩ (Dish.step_refl_list r xs)
    · rw [if_neg hx] at hf
      have hx' : ¬ x._id = ({ dish with comments := cs' } : Dish)._id := by
        show ¬ x._id = dish._id
        rw [hid]; exact hx
      rw [if_neg hx']
      exact List.Forall₂.cons (Dish.step_same r x) (ih hf)

/-- The shape of the store after one request: untouched, or the dish `findById`
returned saved with a comment list that is a step of the old one. -/
theorem dispatch_shape (va : User → Option JsErr) (s : Store) (r : Request) :
    (dispatch va s r).store = s ∨
    ∃ dishId dish cs', findById s.dishes dishId = some dish ∧
      Comments.Step r dish.comments cs' ∧
      (dispatch va s r).store.dishes = save s.dishes { dish with comments := cs' } := by
  cases r with
  | listComments dishId =>
    left
    simp only [dispatch, listComments]
    cases findById s.dishes dishId <;> rfl
  | getComment dishId commentId =>
    left
    simp only [dispatch, getComment]
    cases findById s.dishes dishId with
    | none => rfl
    | some dish =>
      simp only [Option.map_some']
      cases PopulatedComments.id (populate s.users dish).comments commentId <;> rfl
  | addComment dishId user body =>
    simp only [dispatch]
    cases hf : findById s.dishes dishId with
    | none =>
      left
      rw [(write_handlers_missing_dish s dishId 0 user body hf).1]
    | some dish =>
      right
      rw [addComment_found user body hf]
      exact ⟨dishId, dish, _, hf, Comments.Step.of_add dishId user body _ _ rfl, rfl⟩
  | deleteAllComments dishId user =>
    simp only [dispatch]
    cases hva : va user with
    | some e => exact Or.inl rfl
    | none =>
      simp only [deleteAllComments]
      cases hf : findById s.dishes dishId with
      | none => exact Or.inl rfl
      | some dish =>
        simp only
        cases hl : removeAllLoop dish.comments.length dish.comments with
        | error e => exact Or.inl rfl
        | ok cs =>
          exact Or.inr ⟨dishId, dish, cs, hf,
            Comments.Step.of_sublist _ (removeAllLoop_sublist _ _ _ hl), rfl⟩
  | updateComment dishId commentId user body =>
    simp only [dispatch]
    cases hf : findById s.dishes dishId with
    | none =>
      left
      rw [(write_handlers_missing_dish s dishId commentId user body hf).2.2.1]
    | some dish =>
      cases hc : Comments.id dish.comments commentId with
      | none => left; simp only [updateComment, hf, hc]
      | some c =>
        cases ha : c.author with
        | none => left; simp only [updateComment, hf, hc, ha]
        | some a =>
          by_cases hu : user._id = a
          · right
            obtain ⟨_, before, after, hsplit, hb⟩ := Comments.id_eq_some hc
            rw [updateComment_owner_eq user body hf hc (hu ▸ ha) hsplit hb]
            refine ⟨dishId, dish, _, hf, ?_, rfl⟩
            rw [hsplit]
            exact Comments.Step.of_update _ before after c _ ⟨rfl, rfl⟩
          · left; simp only [updateComment, hf, hc, ha, if_neg hu]
  | deleteComment dishId commentId user =>
    simp only [dispatch]
    cases hf : findById s.dishes dishId with
    | none =>
      left
      rw [(write_handlers_missing_dish s dishId commentId user ⟨none, none, none, none⟩
        hf).2.2.2]
    | some dish =>
      cases hc : Comments.id dish.comments commentId with
      | none => left; simp only [deleteComment, hf, hc]
      | some c =>
        cases ha : c.author with
        | none => left; simp only [deleteComment, hf, hc, ha]
        | some a =>
          by_cases hu : user._id = a
          · right
            rw [deleteComment_owner_eq user hf hc (hu ▸ ha)]
            exact ⟨dishId, dish, _, hf,
              Comments.Step.of_sublist _ (List.filter_sublist _), rfl⟩
          · left; simp only [deleteComment, hf, hc, ha, if_neg hu]

/-- One request relates the stored dishes one to one, each by a step. -/
theorem dispatch_step (va : User → Option JsErr) (s : Store) (r : Request) :
    List.Forall₂ (Dish.Step r) s.dishes (dispatch va s r).store.dishes := by
  rcases dispatch_shape va s r with e | ⟨dishId, dish, cs', hf, hstep, e⟩
  · rw [e]; exact Dish.step_refl_list r s.dishes
  · rw [e]; exact Dish.step_save r cs' hf hstep

/-! ## Request sequences -/

theorem forall₂_exists_left {α β : Type} {R : α → β → Prop} {l₁ : List α} {l₂ : List β}
    (h : List.Forall₂ R l₁ l₂) : ∀ b ∈ l₂, ∃ a ∈ l₁, R a b := by
  induction h with
  | nil => intro b hb; cases hb
  | cons hab _ ih =>
    intro b hb
    rcases List.mem_cons.1 hb with rfl | hb
    · exact ⟨_, List.mem_cons_self _ _, hab⟩
    · obtain ⟨a, ha, h⟩ := ih b hb
      exact ⟨a, List.mem_cons_of_mem _ ha, h⟩

/-- The creation record of an add-comment request on an existing dish. -/
theorem creation_addComment_found {s : Store} {dishId : ObjectId} {dish : Dish} (user : User)
    (body : Body) (hf : findById s.dishes dishId = some dish) :
    creation (.addComment dishId user body) (addComment s dishId user body) =
      [(dishId, body._id.getD s.nextId, user._id)] := by
  have hid := findById_id hf
  rw [addComment_found user body hf]
  simp [creation, populate, populateComment, hid]

/-- Every creation record of a request names the dish and the requester of that
request, which is an add-comment request. -/
theorem creation_mem (va : User → Option JsErr) (s : Store) (r : Request)
    (e : ObjectId × ObjectId × ObjectId) (he : e ∈ creation r (dispatch va s r)) :
    ∃ user body, r = .addComment e.1 user body ∧ e.2.2 = user._id := by
  cases r with
  | addComment dishId user body =>
    simp only [dispatch] at he
    cases hf : findById s.dishes dishId with
    | none =>
      rw [(write_handlers_missing_dish s dishId 0 user body hf).1] at he
      cases he
    | some dish =>
      rw [creation_addComment_found user body hf, List.mem_singleton] at he
      subst he
      exact ⟨user, body, rfl, rfl⟩
  | listComments dishId => cases he
  | getComment dishId commentId => cases he
  | deleteAllComments dishId user => cases he
  | updateComment dishId commentId user body => cases he
  | deleteComment dishId commentId user => cases he

/-- Where the comments of the store after one request come from: from a stored
comment of the same dish, with its identifier and author, or from the
add-comment request being served, with the requester as author and a creation
record saying so. -/
theorem dispatch_provenance (va : User → Option JsErr) (s : Store) (r : Request) :
    ∀ d' ∈ (dispatch va s r).store.dishes, ∀ c' ∈ d'.comments,
      (∃ d ∈ s.dishes, d._id = d'._id ∧ ∃ c ∈ d.comments, Comment.Continues c c') ∨
      (∃ u, c'.author = some u ∧ (d'._id, c'._id, u) ∈ creation r (dispatch va s r)) := by
  intro d' hd' c' hc'
  have same : ∀ d' ∈ s.dishes, ∀ c' ∈ d'.comments,
      (∃ d ∈ s.dishes, d._id = d'._id ∧ ∃ c ∈ d.comments, Comment.Continues c c') :=
    fun d' hd' c' hc' => ⟨d', hd', rfl, c', hc', Comment.continues_self c'⟩
  have other : (∀ dishId user body, r ≠ .addComment dishId user body) →
      (∃ d ∈ s.dishes, d._id = d'._id ∧ ∃ c ∈ d.comments, Comment.Continues c c') := by
    intro hr
    obtain ⟨d, hd, hid, _, _, kept, continued, added, hsub, hcont, hcs, hadd⟩ :=
      forall₂_exists_left (dispatch_step va s r) d' hd'
    rw [hcs] at hc'
    rcases List.mem_append.1 hc' with h | h
    · obtain ⟨c, hc, hcc⟩ := Comments.continues_mem hcont c' h
      exact ⟨d, hd, hid.symm, c, hsub.subset hc, hcc⟩
    · obtain ⟨dishId, user, body, hr', _⟩ := hadd c' h
      exact absurd hr' (hr dishId user body)
  cases r with
  | addComment dishId user body =>
    simp only [dispatch] at hd' ⊢
    cases hf : findById s.dishes dishId with
    | none =>
      rw [(write_handlers_missing_dish s dishId 0 user body hf).1] at hd'
      exact Or.inl (same d' hd' c' hc')
    | some dish =>
      rw [creation_addComment_found user body hf]
      rw [addComment_found user body hf] at hd'
      rcases mem_save hd' with h | rfl
      · exact Or.inl (same d' h c' hc')
      · rcases List.mem_append.1 hc' with h | h
        · exact Or.inl ⟨dish, findById_mem hf, rfl, c', h, Comment.continues_self c'⟩
        · right
          rw [List.mem_singleton] at h
          subst h
          exact ⟨user._id, rfl, by
            rw [List.mem_singleton]
            show (dish._id, _, _) = (dishId, _, _)
            rw [findById_id hf]⟩
  | listComments dishId => exact Or.inl (other (fun _ _ _ h => by cases h))
  | getComment dishId commentId => exact Or.inl (other (fun _ _ _ h => by cases h))
  | deleteAllComments dishId user => exact Or.inl (other (fun _ _ _ h => by cases h))
  | updateComment dishId commentId user body =>
    exact Or.inl (other (fun _ _ _ h => by cases h))
  | deleteComment dishId commentId user => exact Or.inl (other (fun _ _ _ h => by cases h))

/-- Serving one request keeps the invariant. -/
theorem Traced.Inv.step (va : User → Option JsErr) {t : Traced} (h : t.Inv) (r : Request) :
    (t.step va r).Inv := by
  intro d' hd' c' hc'
  rcases dispatch_provenance va t.store r d' hd' c' hc' with
    ⟨d, hd, hid, c, hc, hci, hca⟩ | ⟨u, hu, hmem⟩
  · obtain ⟨u, hu, hmem⟩ := h d hd c hc
    refine ⟨u, hca.trans hu, List.mem_append_left _ ?_⟩
    rw [← hid, hci]; exact hmem
  · exact ⟨u, hu, List.mem_append_right _ hmem⟩

/-- Serving a sequence of requests keeps the invariant. -/
theorem Traced.Inv.run (va : User → Option JsErr) (rs : List Request) :
    ∀ {t : Traced}, t.Inv → (t.run va rs).Inv := by
  induction rs with
  | nil => intro t h; exact h
  | cons r rs ih => intro t h; exact ih (h.step va r)

/-- A store without comments satisfies the invariant. -/
theorem Traced.Inv.init (s : Store) (h : ∀ d ∈ s.dishes, d.comments = []) :
    Traced.Inv ⟨s, []⟩ := by
  intro d hd c hc
  rw [h d hd] at hc; cases hc

/-- Every creation record of a request sequence stems from an add-comment
request of the sequence, on the recorded dish and by the recorded creator. -/
theorem Traced.created_run (va : User → Option JsErr) (rs : List Request) :
    ∀ (t : Traced), ∀ e ∈ (t.run va rs).created,
      e ∈ t.created ∨ ∃ user body, Request.addComment e.1 user body ∈ rs ∧ e.2.2 = user._id := by
  induction rs with
  | nil => intro t e he; exact Or.inl he
  | cons r rs ih =>
    intro t e he
    rcases ih (t.step va r) e he with h | ⟨user, body, hmem, hu⟩
    · rcases List.mem_append.1 h with h | h
      · exact Or.inl h
      · obtain ⟨user, body, hr, hu⟩ := creation_mem va t.store r e h
        exact Or.inr ⟨user, body, hr ▸ List.mem_cons_self _ _, hu⟩
    · exact Or.inr ⟨user, body, List.mem_cons_of_mem _ hmem, hu⟩

/-- Claim C10.  Start from a store whose dishes have no comments and serve any
finite sequence of comment-route requests, by any requesters, with any bodies
(an `author` and an `_id` included).  Every comment then present in a dish has
an author, and a creation record names that author as the creator of a comment
with that identifier on that dish; every creation record stems from an
add-comment request of the sequence, on that dish and by that requester.
Moreover no single request changes the author of an existing comment: the dishes
stored after a request correspond one to one to the dishes stored before, and
the comment list of each consists of comments kept from the old list, in order
and each with its identifier and author, followed by the comments an add-comment
request created, which have its requester as author. -/
theorem ownership_invariant (va : User → Option JsErr) (s₀ : Store)
    (h₀ : ∀ d ∈ s₀.dishes, d.comments = []) (rs : List Request) :
    (∀ d ∈ (Traced.run va ⟨s₀, []⟩ rs).store.dishes, ∀ c ∈ d.comments,
      ∃ u, c.author = some u ∧
        (d._id, c._id, u) ∈ (Traced.run va ⟨s₀, []⟩ rs).created) ∧
    (∀ e ∈ (Traced.run va ⟨s₀, []⟩ rs).created,
      ∃ user body, Request.addComment e.1 user body ∈ rs ∧ e.2.2 = user._id) ∧
    (∀ (s : Store) (r : Request),
      List.Forall₂ (Dish.Step r) s.dishes (dispatch va s r).store.dishes) := by
  refine ⟨(Traced.Inv.init s₀ h₀).run va rs, ?_, fun s r => dispatch_step va s r⟩
  intro e he
  rcases Traced.created_run va rs ⟨s₀, []⟩ e he with h | h
  · cases h
  · exact h

/-- Witness of C10: the sample request sequence on the dish without comments. -/
theorem ownership_invariant_witness :
    (∀ d ∈ plainStore.dishes, d.comments = []) ∧
    (∀ d ∈ (Traced.run sampleVerifyAdmin ⟨plainStore, []⟩ sampleRequests).store.dishes,
      ∀ c ∈ d.comments,
      ∃ u, c.author = some u ∧
        (d._id, c._id, u) ∈
          (Traced.run sampleVerifyAdmin ⟨plainStore, []⟩ sampleRequests).created) ∧
    (∀ e ∈ (Traced.run sampleVerifyAdmin ⟨plainStore, []⟩ sampleRequests).created,
      ∃ user body, Request.addComment e.1 user body ∈ sampleRequests ∧ e.2.2 = user._id) ∧
    (∀ (s : Store) (r : Request),
      List.Forall₂ (Dish.Step r) s.dishes (dispatch sampleVerifyAdmin s r).store.dishes) :=
  ⟨by decide, ownership_invariant sampleVerifyAdmin plainStore (by decide) sampleRequests⟩

/-- The sample request sequence evaluated: the two comments share the identifier
100, each is stored with the identity of the requester who posted it, and the
creation records say so. -/
theorem sampleRequests_run :
    Traced.run sampleVerifyAdmin ⟨plainStore, []⟩ sampleRequests =
      ⟨⟨[⟨7, "pizza", "thin crust",
          [⟨100, some 3, some "great", some 2⟩, ⟨100, some 5, some "superb", some 1⟩]⟩],
        [alice, bob], 101⟩,
       [(7, 100, 2), (7, 100, 1)]⟩ := by
  decide

end DishRouter
